import Mathlib

/-!
Shallow embedding of the PgVector collection engine
(prototype/vagentic/vectordb/pgvector.py).

Database effects are made explicit: the live table is a list of rows,
query outcomes that can raise are values of Except, and values produced
by the server (row counts, timestamps, probe results) are passed in as
parameters.  The md5 hex digest and the embedding provider are opaque
pure functions passed as parameters; the model never depends on their
internals, only on how the code composes them.
-/

namespace PgVectorModel

/-- Modelled from the spec: the distance metric enumeration from
vagents.vagentic.vectordb.base (not under src/); spec section 3 fixes it
to one of L2, cosine, max-inner-product. -/
inductive Distance where
  | l2
  | cosine
  | max_inner_product
deriving DecidableEq, Repr

/-- Configuration of an ivfflat (list) index, from class Ivfflat. -/
structure Ivfflat where
  name : Option String := none
  lists : Nat := 100
  probes : Nat := 10
  dynamic_lists : Bool := true
deriving DecidableEq, Repr

/-- Configuration of an hnsw (graph) index, from class HNSW. -/
structure HNSW where
  name : Option String := none
  m : Nat := 16
  ef_search : Nat := 5
  ef_construction : Nat := 200
deriving DecidableEq, Repr

/-- The polymorphic index policy: Optional Union of Ivfflat and HNSW. -/
inductive IndexKind where
  | ivfflat (i : Ivfflat)
  | hnsw (h : HNSW)
deriving DecidableEq, Repr

/-- Modelled from the spec: the Document contract of
vagents.vagentic.document (not under src/); spec section 6 gives its
fields as id?, name, content, metadata, usage, embedding, with embed
populating the embedding in place.  M, E, U are the types of the
metadata payload, the embedding vector and the usage payload. -/
structure Doc (M E U : Type) where
  id : Option String := none
  name : Option String := none
  content : String
  meta_data : M
  usage : U
  embedding : Option E := none
deriving DecidableEq, Repr

/-- One stored row of the backing table, from get_table: columns id (PK),
name, meta_data, content, embedding, usage, created_at (server default
now), updated_at (set on update only), content_hash.  T is the type of
server timestamps. -/
structure Row (M E U T : Type) where
  id : String
  name : Option String
  meta_data : M
  content : String
  embedding : E
  usage : U
  created_at : T
  updated_at : Option T
  content_hash : String
deriving DecidableEq, Repr

/-- The column names of the backing table, in declaration order from
get_table. -/
def tableColumns : List String :=
  ["id", "name", "meta_data", "content", "embedding", "usage",
   "created_at", "updated_at", "content_hash"]

/-- Content normalization before hashing and storage:
content.replace(chr 0, replacement char), from lines 143, 180, 219. -/
def cleanContent (s : String) : String :=
  String.mk (s.data.map
    (fun c => if c = Char.ofNat 0 then Char.ofNat 0xFFFD else c))

/-- Identity derivation: document.id or content_hash (Python or: a None
or empty id falls back to the digest of the cleaned content). -/
def deriveId (md5hex : String → String) (d : Doc M E U) : String :=
  match d.id with
  | none => md5hex (cleanContent d.content)
  | some s => if s = "" then md5hex (cleanContent d.content) else s

/-- The VALUES clause staged by insert and upsert (lines 183-191 and
222-230): id, name, meta_data, content (cleaned), embedding, usage,
content_hash. -/
structure RowValues (M E U : Type) where
  id : String
  name : Option String
  meta_data : M
  content : String
  embedding : E
  usage : U
  content_hash : String
deriving DecidableEq, Repr

/-- Staging one document: embed via the provider, clean the content,
hash it, derive the identity, and build the VALUES clause. -/
def docToRow (md5hex : String → String) (emb : String → E)
    (d : Doc M E U) : RowValues M E U :=
  { id := deriveId md5hex d
    name := d.name
    meta_data := d.meta_data
    content := cleanContent d.content
    embedding := emb d.content
    usage := d.usage
    content_hash := md5hex (cleanContent d.content) }

/-- Effect of a plain INSERT statement on the table (success path):
the new row is appended with created_at defaulted by the server and
updated_at NULL. -/
def insertApply (now : T) (t : List (Row M E U T)) (v : RowValues M E U) :
    List (Row M E U T) :=
  t ++ [{ id := v.id, name := v.name, meta_data := v.meta_data,
          content := v.content, embedding := v.embedding, usage := v.usage,
          created_at := now, updated_at := none,
          content_hash := v.content_hash }]

/-- Effect of INSERT ... ON CONFLICT (id) DO UPDATE (lines 222-242): when
a row with the same id exists, its name, meta_data, content, embedding,
usage and content_hash are all replaced with the excluded (new) values
and updated_at is set by the onupdate trigger; otherwise a plain insert. -/
def upsertApply (now : T) (t : List (Row M E U T)) (v : RowValues M E U) :
    List (Row M E U T) :=
  if t.any (fun x => x.id = v.id) then
    t.map (fun x =>
      if x.id = v.id then
        { x with name := v.name, meta_data := v.meta_data,
                 content := v.content, embedding := v.embedding,
                 usage := v.usage, content_hash := v.content_hash,
                 updated_at := some now }
      else x)
  else insertApply now t v

/-- The batched write loop shared by insert (lines 175-202) and upsert
(lines 215-253): stage each row in input order, increment a counter,
commit when the counter reaches batch size and reset it, and commit any
remainder at the end.  The first component is the session-visible table
after all statements, the second the list of durable snapshots taken at
each commit (its length is the number of commits). -/
def runWrite (apply : List (Row M E U T) → RowValues M E U → List (Row M E U T))
    (batch_size : Nat) :
    List (RowValues M E U) → List (Row M E U T) → Nat →
    List (List (Row M E U T)) → List (Row M E U T) × List (List (Row M E U T))
  | [], tbl, counter, hist =>
      if 0 < counter then (tbl, hist ++ [tbl]) else (tbl, hist)
  | v :: rest, tbl, counter, hist =>
      let tbl2 := apply tbl v
      let c2 := counter + 1
      if batch_size ≤ c2 then
        runWrite apply batch_size rest tbl2 0 (hist ++ [tbl2])
      else
        runWrite apply batch_size rest tbl2 c2 hist

/-- PgVector.insert: stage every document through docToRow and run the
batched write loop with plain inserts. -/
def insert (md5hex : String → String) (emb : String → E) (now : T)
    (batch_size : Nat) (docs : List (Doc M E U)) (tbl : List (Row M E U T)) :
    List (Row M E U T) × List (List (Row M E U T)) :=
  runWrite (insertApply now) batch_size (docs.map (docToRow md5hex emb)) tbl 0 []

/-- PgVector.upsert: same staging and commit cadence as insert, with the
on-conflict replacement write. -/
def upsert (md5hex : String → String) (emb : String → E) (now : T)
    (batch_size : Nat) (docs : List (Doc M E U)) (tbl : List (Row M E U T)) :
    List (Row M E U T) × List (List (Row M E U T)) :=
  runWrite (upsertApply now) batch_size (docs.map (docToRow md5hex emb)) tbl 0 []

/-- PgVector.doc_exists (lines 133-147): true when some row carries the
digest of the cleaned content as its content_hash. -/
def doc_exists (md5hex : String → String) (tbl : List (Row M E U T))
    (d : Doc M E U) : Bool :=
  tbl.any (fun r => r.content_hash = md5hex (cleanContent d.content))

/-- The scalar returned by the count query of get_count (line 324):
COUNT over the name column, which counts the rows whose name is not
NULL. -/
def countScalar (tbl : List (Row M E U T)) : Option Nat :=
  some ((tbl.filter (fun r => r.name.isSome)).length)

/-- PgVector.get_count (lines 321-328): the count scalar, or 0 when the
query yields no value. -/
def get_count (tbl : List (Row M E U T)) : Nat :=
  (countScalar tbl).getD 0

/-- PgVector.table_exists (lines 117-122) with the probe outcome passed
in.  The except handler references the name logger, which is never
imported in the module, so on a probe failure the handler itself raises
NameError instead of returning False. -/
def table_exists (probe : Except String Bool) : Except String Bool :=
  match probe with
  | .ok b => .ok b
  | .error _ => .error "NameError: name logger is not defined"

/-- Index operator class selection in optimize (lines 340-344),
mirroring the reassignment chain. -/
def indexDistanceOp (d : Distance) : String :=
  let s := "vector_cosine_ops"
  let s := if d = Distance.l2 then "vector_l2_ops" else s
  if d = Distance.max_inner_product then "vector_ip_ops" else s

/-- The parameters of the CREATE INDEX ... USING ivfflat statement
issued by optimize. -/
structure IvfflatBuildPlan where
  name : String
  opclass : String
  probes : Nat
  lists : Nat
deriving DecidableEq, Repr

/-- The ivfflat branch of PgVector.optimize (lines 336-366) with the
result of get_count passed in as total_records.  num_lists starts at the
configured value; with dynamic_lists set it is reassigned to
total_records / 1000 when total_records < 1000000 and to the integer
square root when total_records > 1000000 (int of float sqrt, modelled as
Nat.sqrt), and is left unchanged otherwise. -/
def optimizeIvfflat (collection : String) (d : Distance) (idx : Ivfflat)
    (total_records : Nat) : IvfflatBuildPlan :=
  let iname := idx.name.getD (collection ++ "_ivfflat_index")
  let num_lists := idx.lists
  let num_lists :=
    if idx.dynamic_lists then
      if total_records < 1000000 then total_records / 1000
      else if 1000000 < total_records then Nat.sqrt total_records
      else num_lists
    else num_lists
  { name := iname, opclass := indexDistanceOp d, probes := idx.probes,
    lists := num_lists }

/-- A value stored in one column of a row, used to give filter equality
predicates a uniform type across the heterogeneous columns. -/
inductive ColVal (M E U T : Type) where
  | vid (s : String)
  | vname (s : Option String)
  | vmeta (m : M)
  | vcontent (s : String)
  | vemb (e : E)
  | vusage (u : U)
  | vcreated (t : T)
  | vupdated (t : Option T)
  | vhash (s : String)
deriving DecidableEq, Repr

/-- The value a row holds in a named column, or none when the name is
not a column of the table. -/
def colVal (r : Row M E U T) : String → Option (ColVal M E U T)
  | "id" => some (ColVal.vid r.id)
  | "name" => some (ColVal.vname r.name)
  | "meta_data" => some (ColVal.vmeta r.meta_data)
  | "content" => some (ColVal.vcontent r.content)
  | "embedding" => some (ColVal.vemb r.embedding)
  | "usage" => some (ColVal.vusage r.usage)
  | "created_at" => some (ColVal.vcreated r.created_at)
  | "updated_at" => some (ColVal.vupdated r.updated_at)
  | "content_hash" => some (ColVal.vhash r.content_hash)
  | _ => none

/-- The similarity expressions the code can order by: cosine_distance or
max_inner_product of the embedding column with the query embedding. -/
inductive OrderExpr where
  | maxInnerProduct
  | cosineDistance
deriving DecidableEq, Repr

/-- Ordering expression chosen by search (lines 275-280): three
independent conditionals, mirrored as a reassignment chain over an
initially unordered statement. -/
def searchOrder (d : Distance) : Option OrderExpr :=
  let o : Option OrderExpr := none
  let o := if d = Distance.l2 then some OrderExpr.maxInnerProduct else o
  let o := if d = Distance.cosine then some OrderExpr.cosineDistance else o
  if d = Distance.max_inner_product then some OrderExpr.maxInnerProduct else o

/-- The projection selected by search (lines 260-266). -/
def searchColumns : List String :=
  ["name", "meta_data", "content", "embedding", "usage"]

/-- Non-column attributes of the backing column collection object
self.table.c: the hasattr guard of the filter loop is also true for
these names, although they name no column.  This is a representative
set of the documented collection attributes (the collection exposes
further attributes, including dunder names, which behave the same
way). -/
def columnCollectionAttrs : List String :=
  ["keys", "values", "items", "get", "copy", "contains_column",
   "corresponding_column", "add", "clear", "as_readonly", "compare"]

/-- One WHERE conjunct added by the filter loop: an equality predicate
on a real column, or the degenerate predicate produced when the key
names a non-column attribute of the column collection — there
getattr(self.table.c, key) yields the bound attribute, the comparison
with the filter value evaluates to the constant false, and the clause
matches no row. -/
inductive WhereClause (M E U T : Type) where
  | colEq (key : String) (v : ColVal M E U T)
  | neverMatch (key : String) (v : ColVal M E U T)
deriving DecidableEq, Repr

/-- The SELECT statement search builds: projected columns, where
conjuncts in application order, ordering expression, and row limit. -/
structure Stmt (M E U T : Type) where
  columns : List String
  whereEq : List (WhereClause M E U T)
  orderBy : Option OrderExpr
  lim : Nat
deriving Repr

/-- The WHERE conjunct one filters entry contributes, if any: an
equality clause when the key names a column, the never-matching clause
when it names a non-column collection attribute (the hasattr guard is
true there too), and nothing when the key is no attribute of the
collection at all. -/
def filterClause (kv : String × ColVal M E U T) :
    Option (WhereClause M E U T) :=
  if tableColumns.contains kv.1 then some (WhereClause.colEq kv.1 kv.2)
  else if columnCollectionAttrs.contains kv.1 then
    some (WhereClause.neverMatch kv.1 kv.2)
  else none

/-- Filter application (lines 270-273): for each key and value in the
filters mapping, in order, when hasattr(self.table.c, key) holds —
that is, when the key names a column or another attribute of the
column collection — add the corresponding where conjunct, and skip the
entry otherwise. -/
def applyFilters (stmt : Stmt M E U T)
    (fs : List (String × ColVal M E U T)) : Stmt M E U T :=
  fs.foldl
    (fun s kv =>
      if tableColumns.contains kv.1 then
        { s with whereEq := s.whereEq ++ [WhereClause.colEq kv.1 kv.2] }
      else if columnCollectionAttrs.contains kv.1 then
        { s with whereEq := s.whereEq ++ [WhereClause.neverMatch kv.1 kv.2] }
      else s)
    stmt

/-- The complete statement built by search before execution
(lines 268-282). -/
def buildStmt (d : Distance)
    (filters : Option (List (String × ColVal M E U T))) (lim : Nat) :
    Stmt M E U T :=
  let stmt : Stmt M E U T :=
    { columns := searchColumns, whereEq := [], orderBy := none, lim := lim }
  let stmt :=
    match filters with
    | none => stmt
    | some fs => applyFilters stmt fs
  let stmt := { stmt with orderBy := searchOrder d }
  { stmt with lim := lim }

/-- Whether a row satisfies one where conjunct: a column-equality
clause compares the column value, the never-matching clause holds for
no row. -/
def rowSatisfies [DecidableEq M] [DecidableEq E] [DecidableEq U]
    [DecidableEq T] (r : Row M E U T) : WhereClause M E U T → Bool
  | WhereClause.colEq k v =>
      match colVal r k with
      | some cv => decide (cv = v)
      | none => true
  | WhereClause.neverMatch _ _ => false

/-- The score of a row embedding under an ordering expression, given the
opaque inner-product and cosine-distance score functions of the vector
engine. -/
def scoreOf (ipScore cosScore : E → E → Int) :
    OrderExpr → E → E → Int
  | OrderExpr.maxInnerProduct, q, e => ipScore q e
  | OrderExpr.cosineDistance, q, e => cosScore q e

/-- Ascending sort of the filtered rows by the chosen ordering
expression; with no ORDER BY the rows keep table order. -/
def sortRows (ipScore cosScore : E → E → Int) (o : Option OrderExpr)
    (q : E) (rows : List (Row M E U T)) : List (Row M E U T) :=
  match o with
  | none => rows
  | some e =>
      rows.mergeSort (fun a b =>
        scoreOf ipScore cosScore e q a.embedding ≤
          scoreOf ipScore cosScore e q b.embedding)

/-- Execution of the built statement over the live table: filter by the
equality predicates, order by the similarity expression, truncate to the
limit. -/
def execStmt [DecidableEq M] [DecidableEq E] [DecidableEq U] [DecidableEq T]
    (ipScore cosScore : E → E → Int) (stmt : Stmt M E U T) (q : E)
    (rows : List (Row M E U T)) : List (Row M E U T) :=
  (sortRows ipScore cosScore stmt.orderBy q
    (rows.filter (fun r => stmt.whereEq.all (rowSatisfies r)))).take stmt.lim

/-- Result-document construction (lines 300-310): a Document built from
the five projected columns only; no id is passed, so it defaults to
none. -/
def mkSearchDoc (r : Row M E U T) : Doc M E U :=
  { id := none, name := r.name, content := r.content,
    meta_data := r.meta_data, usage := r.usage,
    embedding := some r.embedding }

/-- The database world a search runs against: the live rows, plus
failure injection for the two effectful steps of search.  execFails set
means executing the similarity statement raises with that message;
createFails set means the recovery call to create raises with that
message (for example the NameError escaping table_exists, or a DDL
failure). -/
structure DbWorld (M E U T : Type) where
  rows : List (Row M E U T)
  execFails : Option String := none
  createFails : Option String := none

/-- PgVector.search (lines 255-312): empty result when the query
embedding is unavailable; otherwise build the statement and execute it;
on an execution failure call create and return the empty list, so a
failure inside the recovery call is the only error that can escape. -/
def search [DecidableEq M] [DecidableEq E] [DecidableEq U] [DecidableEq T]
    (ipScore cosScore : E → E → Int) (d : Distance) (qEmb : Option E)
    (lim : Nat) (filters : Option (List (String × ColVal M E U T)))
    (world : DbWorld M E U T) : Except String (List (Doc M E U)) :=
  match qEmb with
  | none => .ok []
  | some q =>
      let stmt := buildStmt d filters lim
      match world.execFails with
      | some _ =>
          match world.createFails with
          | some e2 => .error e2
          | none => .ok []
      | none =>
          .ok ((execStmt ipScore cosScore stmt q world.rows).map mkSearchDoc)

/-! Concrete inputs used to evaluate the model at specific points.  All
type parameters are instantiated with Nat, the digest function with an
injective string tag, and the embedding provider with a constant. -/

/-- A document with only content and trivial payloads. -/
def natDoc (s : String) : Doc Nat Nat Nat :=
  { content := s, meta_data := 0, usage := 0 }

/-- A document whose content holds an embedded null character. -/
def wNullDoc : Doc Nat Nat Nat :=
  { content := "a\x00b", meta_data := 0, usage := 0 }

/-- A stand-in digest function for concrete evaluation. -/
def wHash (s : String) : String := s ++ "#"

/-- A stand-in embedding provider for concrete evaluation. -/
def wEmb (_ : String) : Nat := 7

/-- A stand-in similarity score for concrete evaluation. -/
def zeroScore : Nat → Nat → Int := fun _ _ => 0

/-- A stored row whose id collides with the derived identity of
natDoc abc under wHash. -/
def wRowA : Row Nat Nat Nat Nat :=
  { id := "abc#", name := some "old", meta_data := 9, content := "old",
    embedding := 1, usage := 9, created_at := 0, updated_at := none,
    content_hash := "oldhash#" }

/-- The row wRowA after the conflict update of upserting natDoc abc at
timestamp 5. -/
def wRowAfter : Row Nat Nat Nat Nat :=
  { id := "abc#", name := none, meta_data := 0, content := "abc",
    embedding := 7, usage := 0, created_at := 0, updated_at := some 5,
    content_hash := "abc#" }

/-- A stored row whose name column is NULL. -/
def wRowNoName : Row Nat Nat Nat Nat :=
  { id := "r1", name := none, meta_data := 0, content := "x",
    embedding := 0, usage := 0, created_at := 0, updated_at := none,
    content_hash := "h" }

/-- A stored row with a non-NULL name. -/
def wRowNamed : Row Nat Nat Nat Nat :=
  { id := "r2", name := some "n", meta_data := 0, content := "x",
    embedding := 0, usage := 0, created_at := 0, updated_at := none,
    content_hash := "h" }

/-- Three documents for exercising the batch loop. -/
def wDocs : List (Doc Nat Nat Nat) := [natDoc "a", natDoc "b", natDoc "c"]

/-- A world where executing the similarity statement fails and the
recovery provisioning also fails (for example with the NameError that
escapes table_exists when the probe cannot reach the server). -/
def c4WorldBad : DbWorld Nat Nat Nat Nat :=
  { rows := [], execFails := some "relation does not exist",
    createFails := some "NameError: name logger is not defined" }

/-- A world where executing the similarity statement fails and the
recovery provisioning succeeds. -/
def c4WorldRecovered : DbWorld Nat Nat Nat Nat :=
  { rows := [], execFails := some "relation does not exist" }

theorem applyFilters_eq {M E U T : Type} (stmt : Stmt M E U T)
    (fs : List (String × ColVal M E U T)) :
    applyFilters stmt fs =
      { stmt with whereEq := stmt.whereEq ++ fs.filterMap filterClause } := by
  induction fs generalizing stmt with
  | nil => simp [applyFilters]
  | cons kv rest ih =>
      by_cases h1 : kv.1 ∈ tableColumns
      · rw [show applyFilters stmt (kv :: rest) =
            applyFilters { stmt with
              whereEq := stmt.whereEq ++ [WhereClause.colEq kv.1 kv.2] }
              rest from by simp [applyFilters, h1]]
        rw [ih]
        simp [List.filterMap_cons, filterClause, h1, List.append_assoc]
      · by_cases h2 : kv.1 ∈ columnCollectionAttrs
        · rw [show applyFilters stmt (kv :: rest) =
              applyFilters { stmt with
                whereEq := stmt.whereEq ++ [WhereClause.neverMatch kv.1 kv.2] }
                rest from by simp [applyFilters, h1, h2]]
          rw [ih]
          simp [List.filterMap_cons, filterClause, h1, h2, List.append_assoc]
        · rw [show applyFilters stmt (kv :: rest) = applyFilters stmt rest from
              by simp [applyFilters, h1, h2]]
          rw [ih]
          simp [List.filterMap_cons, filterClause, h1, h2]

theorem runWrite_hist_append {M E U T : Type}
    (apply : List (Row M E U T) → RowValues M E U → List (Row M E U T))
    (B : Nat) (rows : List (RowValues M E U)) :
    ∀ (tbl : List (Row M E U T)) (c : Nat)
      (h1 h2 : List (List (Row M E U T))),
      runWrite apply B rows tbl c (h1 ++ h2) =
        ((runWrite apply B rows tbl c h2).1,
          h1 ++ (runWrite apply B rows tbl c h2).2) := by
  induction rows with
  | nil =>
      intro tbl c h1 h2
      by_cases hc : 0 < c <;> simp [runWrite, hc, List.append_assoc]
  | cons v rest ih =>
      intro tbl c h1 h2
      by_cases hb : B ≤ c + 1 <;> simp only [runWrite, hb, if_true, if_false,
        ite_true, ite_false]
      · rw [List.append_assoc]
        exact ih (apply tbl v) 0 h1 (h2 ++ [apply tbl v])
      · exact ih (apply tbl v) (c + 1) h1 h2

theorem runWrite_fst {M E U T : Type}
    (apply : List (Row M E U T) → RowValues M E U → List (Row M E U T))
    (B : Nat) (rows : List (RowValues M E U)) :
    ∀ (tbl : List (Row M E U T)) (c : Nat)
      (hist : List (List (Row M E U T))),
      (runWrite apply B rows tbl c hist).1 = rows.foldl apply tbl := by
  induction rows with
  | nil =>
      intro tbl c hist
      by_cases hc : 0 < c <;> simp [runWrite, hc]
  | cons v rest ih =>
      intro tbl c hist
      by_cases hb : B ≤ c + 1 <;> simp [runWrite, hb, ih]

theorem runWrite_consume {M E U T : Type}
    (apply : List (Row M E U T) → RowValues M E U → List (Row M E U T))
    (B : Nat) (rows : List (RowValues M E U)) :
    ∀ (c : Nat), c < B → B - c ≤ rows.length →
      ∀ (tbl : List (Row M E U T)) (hist : List (List (Row M E U T))),
      runWrite apply B rows tbl c hist =
        runWrite apply B (rows.drop (B - c))
          ((rows.take (B - c)).foldl apply tbl) 0
          (hist ++ [(rows.take (B - c)).foldl apply tbl]) := by
  induction rows with
  | nil =>
      intro c hc hlen tbl hist
      simp at hlen
      omega
  | cons v rest ih =>
      intro c hc hlen tbl hist
      by_cases hb : B ≤ c + 1
      · have hbc : B - c = 1 := by omega
        simp [runWrite, hb, hbc]
      · have hbc : B - c = (B - (c + 1)) + 1 := by omega
        rw [hbc, List.take_succ_cons, List.drop_succ_cons, List.foldl_cons]
        have step : runWrite apply B (v :: rest) tbl c hist =
            runWrite apply B rest (apply tbl v) (c + 1) hist := by
          simp [runWrite, hb]
        rw [step]
        exact ih (c + 1) (by omega)
          (by simp [List.length_cons] at hlen; omega) (apply tbl v) hist

theorem runWrite_small {M E U T : Type}
    (apply : List (Row M E U T) → RowValues M E U → List (Row M E U T))
    (B : Nat) (rows : List (RowValues M E U)) :
    ∀ (c : Nat) (tbl : List (Row M E U T))
      (hist : List (List (Row M E U T))), c + rows.length < B →
      runWrite apply B rows tbl c hist =
        (rows.foldl apply tbl,
          if 0 < c + rows.length then hist ++ [rows.foldl apply tbl]
          else hist) := by
  induction rows with
  | nil =>
      intro c tbl hist h
      by_cases hc : 0 < c <;> simp [runWrite, hc]
  | cons v rest ih =>
      intro c tbl hist h
      have hb : ¬ B ≤ c + 1 := by simp [List.length_cons] at h; omega
      have step : runWrite apply B (v :: rest) tbl c hist =
          runWrite apply B rest (apply tbl v) (c + 1) hist := by
        simp [runWrite, hb]
      rw [step, ih (c + 1) (apply tbl v) hist
        (by simp [List.length_cons] at h ⊢; omega)]
      have hp1 : 0 < c + 1 + rest.length := by omega
      have hp2 : 0 < c + (v :: rest).length := by simp
      simp [hp1, hp2]

theorem runWrite_commits {M E U T : Type}
    (apply : List (Row M E U T) → RowValues M E U → List (Row M E U T))
    (B : Nat) (hB : 1 ≤ B) :
    ∀ (n : Nat) (rows : List (RowValues M E U)), rows.length = n →
      ∀ (tbl : List (Row M E U T)),
      (runWrite apply B rows tbl 0 []).2.length = (rows.length + B - 1) / B := by
  intro n
  induction n using Nat.strong_induction_on with
  | _ n ih =>
    intro rows hlen tbl
    by_cases h0 : rows.length = 0
    · have : rows = [] := List.length_eq_zero.mp h0
      subst this
      simp [runWrite, Nat.div_eq_of_lt (by omega : B - 1 < B)]
    · by_cases hsmall : rows.length < B
      · rw [runWrite_small apply B rows 0 tbl [] (by omega)]
        have hpos : 0 < 0 + rows.length := by omega
        simp only [hpos, if_pos, List.nil_append]
        have e1 : rows.length + B - 1 = (rows.length - 1) + B := by omega
        rw [e1, Nat.add_div_right _ (by omega),
          Nat.div_eq_of_lt (by omega : rows.length - 1 < B)]
        simp
      · have hBlen : B ≤ rows.length := by omega
        rw [runWrite_consume apply B rows 0 (by omega) (by omega) tbl []]
        rw [Nat.sub_zero, List.nil_append,
          show ([(rows.take B).foldl apply tbl] :
              List (List (Row M E U T))) =
            [(rows.take B).foldl apply tbl] ++ [] from by simp]
        rw [runWrite_hist_append]
        have hdrop : (rows.drop B).length = rows.length - B := by
          simp [List.length_drop]
        rw [List.length_append,
          ih (rows.length - B) (by omega) (rows.drop B) hdrop
            ((rows.take B).foldl apply tbl)]
        rw [hdrop]
        have e1 : rows.length - B + B - 1 = rows.length - 1 := by omega
        have e2 : rows.length + B - 1 = (rows.length - 1) + B := by omega
        rw [e1, e2, Nat.add_div_right _ (by omega)]
        simp only [List.length_singleton]
        exact Nat.add_comm 1 _

theorem runWrite_hist_get {M E U T : Type}
    (apply : List (Row M E U T) → RowValues M E U → List (Row M E U T))
    (B : Nat) (hB : 1 ≤ B) :
    ∀ (k : Nat), 1 ≤ k → ∀ (rows : List (RowValues M E U))
      (tbl : List (Row M E U T)), k * B ≤ rows.length →
      ((runWrite apply B rows tbl 0 []).2).get? (k - 1) =
        some ((rows.take (k * B)).foldl apply tbl) := by
  intro k
  induction k with
  | zero => omega
  | succ k ihk =>
    intro _ rows tbl hlen
    have hmul : (k + 1) * B = k * B + B := by ring
    have hBlen : B ≤ rows.length := by omega
    rw [runWrite_consume apply B rows 0 (by omega) (by omega) tbl []]
    rw [Nat.sub_zero, List.nil_append,
      show ([(rows.take B).foldl apply tbl] :
          List (List (Row M E U T))) =
        [(rows.take B).foldl apply tbl] ++ [] from by simp]
    rw [runWrite_hist_append]
    cases k with
    | zero =>
        simp [List.get?]
    | succ m =>
        rw [show m + 1 + 1 - 1 = m + 1 from by omega, List.singleton_append,
          List.get?_cons_succ]
        have hmul2 : (m + 1 + 1) * B = (m + 1) * B + B := by ring
        have hlen2 : (m + 1) * B ≤ (rows.drop B).length := by
          simp only [List.length_drop]
          omega
        have ih2 := ihk (by omega) (rows.drop B)
          ((rows.take B).foldl apply tbl) hlen2
        rw [show m + 1 - 1 = m from rfl] at ih2
        rw [ih2]
        have htake : rows.take ((m + 1 + 1) * B) =
            rows.take B ++ (rows.drop B).take ((m + 1) * B) := by
          have e : (m + 1 + 1) * B = B + (m + 1) * B := by ring
          rw [e, List.take_add]
        rw [htake, List.foldl_append]

theorem mem_sortRows {M E U T : Type} (ipScore cosScore : E → E → Int)
    (o : Option OrderExpr) (q : E) (l : List (Row M E U T))
    (a : Row M E U T) : a ∈ sortRows ipScore cosScore o q l ↔ a ∈ l := by
  cases o <;> simp [sortRows]

/-- C1 (amended): for an Ivfflat index with dynamic sizing enabled,
optimize computes the nominal list count as count/1000 strictly below
one million rows and as the integer square root of the count strictly
above one million rows; at exactly one million rows, and whenever
dynamic sizing is disabled, the configured static lists value is used.
At row count 500000 the computed list count is 500 and at 4000000 it is
2000. -/
theorem optimize_dynamic_list_sizing (c : String) (d : Distance)
    (idx : Ivfflat) (n : Nat) (hdyn : idx.dynamic_lists = true) :
    (n < 1000000 → (optimizeIvfflat c d idx n).lists = n / 1000) ∧
    (1000000 < n → (optimizeIvfflat c d idx n).lists = Nat.sqrt n) ∧
    (n = 1000000 → (optimizeIvfflat c d idx n).lists = idx.lists) ∧
    (∀ idx2 : Ivfflat, idx2.dynamic_lists = false →
      (optimizeIvfflat c d idx2 n).lists = idx2.lists) ∧
    (optimizeIvfflat c d idx 500000).lists = 500 ∧
    (optimizeIvfflat c d idx 4000000).lists = 2000 := by
  have hsq : Nat.sqrt 4000000 = 2000 :=
    (Nat.eq_sqrt.mpr (by norm_num)).symm
  refine ⟨?_, ?_, ?_, ?_, ?_, ?_⟩
  · intro h
    simp [optimizeIvfflat, hdyn, h]
  · intro h
    simp [optimizeIvfflat, hdyn, h, show ¬ n < 1000000 by omega]
  · intro h
    subst h
    simp [optimizeIvfflat, hdyn]
  · intro idx2 h2
    simp [optimizeIvfflat, h2]
  · norm_num [optimizeIvfflat, hdyn]
  · norm_num [optimizeIvfflat, hdyn, hsq]

/-- C1 witness: the dynamic-sizing branch evaluated at the two concrete
row counts of the claim. -/
theorem optimize_dynamic_list_sizing_witness :
    (optimizeIvfflat "docs" Distance.cosine { } 500000).lists = 500 ∧
    (optimizeIvfflat "docs" Distance.cosine { } 4000000).lists = 2000 :=
  ⟨(optimize_dynamic_list_sizing "docs" Distance.cosine { } 500000
      rfl).2.2.2.2.1,
    (optimize_dynamic_list_sizing "docs" Distance.cosine { } 4000000
      rfl).2.2.2.2.2⟩

/-- C1 counterexample: at exactly one million rows, with dynamic sizing
enabled (the default) and the default static value 100, optimize keeps
the static value 100 rather than the sqrt value 1000 that the claim
gives for counts at or above one million. -/
theorem optimize_million_boundary_counterexample :
    ({ } : Ivfflat).dynamic_lists = true ∧
    (optimizeIvfflat "docs" Distance.cosine { } 1000000).lists = 100 ∧
    Nat.sqrt 1000000 = 1000 := by
  exact ⟨rfl, by decide, (Nat.eq_sqrt.mpr (by norm_num)).symm⟩

/-- C2: when the identity derived for an upserted document already
exists as a row id, every row carrying that id after the conflict write
has its name, metadata, content, embedding, usage and content hash
replaced wholesale by the values staged from the new document (and its
update timestamp refreshed), with no condition on whether the content
hash changed. -/
theorem upsert_conflict_replaces {M E U T : Type}
    (md5hex : String → String) (emb : String → E) (now : T)
    (d : Doc M E U) (t : List (Row M E U T)) (x : Row M E U T)
    (hx : x ∈ t) (hid : x.id = deriveId md5hex d) :
    (upsert md5hex emb now 1 [d] t).1 =
      upsertApply now t (docToRow md5hex emb d) ∧
    ∀ y ∈ upsertApply now t (docToRow md5hex emb d),
      y.id = deriveId md5hex d →
        y.name = d.name ∧ y.meta_data = d.meta_data ∧
        y.content = cleanContent d.content ∧
        y.embedding = emb d.content ∧ y.usage = d.usage ∧
        y.content_hash = md5hex (cleanContent d.content) ∧
        y.updated_at = some now := by
  refine ⟨(runWrite_fst (upsertApply now) 1 _ t 0 []).trans (by simp), ?_⟩
  intro y hy hyid
  have hvid : (docToRow md5hex emb d).id = deriveId md5hex d := rfl
  have hany : (t.any fun z => z.id = (docToRow md5hex emb d).id) = true := by
    rw [List.any_eq_true]
    exact ⟨x, hx, by simp [hvid, hid]⟩
  rw [upsertApply, if_pos hany] at hy
  obtain ⟨z, hz, hdef⟩ := List.mem_map.1 hy
  by_cases hzid : z.id = (docToRow md5hex emb d).id
  · rw [if_pos hzid] at hdef
    subst hdef
    simp [docToRow]
  · rw [if_neg hzid] at hdef
    subst hdef
    exact absurd (hvid ▸ hyid) hzid

/-- C2 witness: upserting a document whose derived identity collides
with the stored row wRowA replaces all six non-key columns. -/
theorem upsert_conflict_replaces_witness :
    wRowA ∈ [wRowA] ∧ wRowA.id = deriveId wHash (natDoc "abc") ∧
    (upsert wHash wEmb 5 1 [natDoc "abc"] [wRowA]).1 =
      upsertApply 5 [wRowA] (docToRow wHash wEmb (natDoc "abc")) ∧
    (wRowAfter.name = (natDoc "abc").name ∧
      wRowAfter.meta_data = (natDoc "abc").meta_data ∧
      wRowAfter.content = cleanContent (natDoc "abc").content ∧
      wRowAfter.embedding = wEmb (natDoc "abc").content ∧
      wRowAfter.usage = (natDoc "abc").usage ∧
      wRowAfter.content_hash = wHash (cleanContent (natDoc "abc").content) ∧
      wRowAfter.updated_at = some 5) :=
  ⟨by decide, by decide,
    (upsert_conflict_replaces wHash wEmb 5 (natDoc "abc") [wRowA] wRowA
      (by decide) (by decide)).1,
    (upsert_conflict_replaces wHash wEmb 5 (natDoc "abc") [wRowA] wRowA
      (by decide) (by decide)).2 wRowAfter (by decide) (by decide)⟩

/-- C3: the ordering expression of the similarity statement is a
function of the configured distance metric alone: l2 and
max-inner-product both order by the inner-product proximity expression,
cosine orders by cosine distance, and a search under l2 returns exactly
what the same search under max-inner-product returns. -/
theorem search_ordering_by_metric {M E U T : Type} [DecidableEq M]
    [DecidableEq E] [DecidableEq U] [DecidableEq T]
    (ipS cosS : E → E → Int) (qe : Option E) (lim : Nat)
    (fs : Option (List (String × ColVal M E U T)))
    (world : DbWorld M E U T) :
    searchOrder Distance.l2 = some OrderExpr.maxInnerProduct ∧
    searchOrder Distance.max_inner_product =
      some OrderExpr.maxInnerProduct ∧
    searchOrder Distance.cosine = some OrderExpr.cosineDistance ∧
    search ipS cosS Distance.l2 qe lim fs world =
      search ipS cosS Distance.max_inner_product qe lim fs world := by
  refine ⟨rfl, rfl, rfl, ?_⟩
  have h : (buildStmt Distance.l2 fs lim : Stmt M E U T) =
      buildStmt Distance.max_inner_product fs lim := rfl
  cases qe <;> simp [search, h]

/-- C4 (amended): on a query-execution failure search never propagates
the execution error itself: it calls the schema-provisioning recovery
and, whenever that recovery call does not itself raise, returns the
empty result; the only error search can surface is one raised by the
recovery provisioning. -/
theorem search_exec_failure_recovery {M E U T : Type} [DecidableEq M]
    [DecidableEq E] [DecidableEq U] [DecidableEq T]
    (ipS cosS : E → E → Int) (d : Distance) (q : E) (lim : Nat)
    (fs : Option (List (String × ColVal M E U T)))
    (world : DbWorld M E U T) (e : String)
    (hexec : world.execFails = some e) :
    (world.createFails = none →
      search ipS cosS d (some q) lim fs world = .ok []) ∧
    (∀ e2, search ipS cosS d (some q) lim fs world = .error e2 →
      world.createFails = some e2) := by
  unfold search
  rw [hexec]
  cases hcf : world.createFails <;> simp [hcf]

/-- C4 witness: with a failing statement execution and a successful
recovery, search returns the empty result. -/
theorem search_exec_failure_recovery_witness :
    search zeroScore zeroScore Distance.cosine (some (0 : Nat)) 5 none
      c4WorldRecovered = Except.ok [] :=
  (search_exec_failure_recovery zeroScore zeroScore Distance.cosine 0 5
    none c4WorldRecovered "relation does not exist" rfl).1 rfl

/-- C4 counterexample: when the recovery provisioning itself raises (for
example with the NameError escaping table_exists), search propagates
that error instead of returning an empty result, so search does raise to
its caller on a query-execution failure. -/
theorem search_exec_failure_counterexample :
    search zeroScore zeroScore Distance.cosine (some (0 : Nat)) 5 none
      c4WorldBad = Except.error "NameError: name logger is not defined" :=
  rfl

/-- C5: insert and upsert stage documents in input order and commit
after every batch_size staged documents, flushing any remainder at the
end: N documents with batch size B at least 1 produce exactly
ceil(N/B) = (N + B - 1) / B commits, the durable snapshot at the k-th
commit is exactly the effect of the first k * B documents (so a failure
after the k-th committed batch leaves exactly the first k batches
durable), and the final session state is the effect of all documents in
order. -/
theorem insert_upsert_batch_commits {M E U T : Type}
    (md5hex : String → String) (emb : String → E) (now : T) (B : Nat)
    (hB : 1 ≤ B) (docs : List (Doc M E U)) (tbl : List (Row M E U T)) :
    ((insert md5hex emb now B docs tbl).2.length =
        (docs.length + B - 1) / B ∧
      (insert md5hex emb now B docs tbl).1 =
        (docs.map (docToRow md5hex emb)).foldl (insertApply now) tbl ∧
      ∀ k, 1 ≤ k → k * B ≤ docs.length →
        (insert md5hex emb now B docs tbl).2.get? (k - 1) =
          some (((docs.map (docToRow md5hex emb)).take (k * B)).foldl
            (insertApply now) tbl)) ∧
    ((upsert md5hex emb now B docs tbl).2.length =
        (docs.length + B - 1) / B ∧
      (upsert md5hex emb now B docs tbl).1 =
        (docs.map (docToRow md5hex emb)).foldl (upsertApply now) tbl ∧
      ∀ k, 1 ≤ k → k * B ≤ docs.length →
        (upsert md5hex emb now B docs tbl).2.get? (k - 1) =
          some (((docs.map (docToRow md5hex emb)).take (k * B)).foldl
            (upsertApply now) tbl)) := by
  have hlen : (docs.map (docToRow md5hex emb)).length = docs.length :=
    List.length_map _ _
  constructor
  · refine ⟨?_, ?_, ?_⟩
    · have h := runWrite_commits (insertApply now) B hB
        (docs.map (docToRow md5hex emb)).length
        (docs.map (docToRow md5hex emb)) rfl tbl
      rw [hlen] at h
      exact h
    · exact runWrite_fst (insertApply now) B _ tbl 0 []
    · intro k hk hkB
      exact runWrite_hist_get (insertApply now) B hB k hk
        (docs.map (docToRow md5hex emb)) tbl (by rw [hlen]; exact hkB)
  · refine ⟨?_, ?_, ?_⟩
    · have h := runWrite_commits (upsertApply now) B hB
        (docs.map (docToRow md5hex emb)).length
        (docs.map (docToRow md5hex emb)) rfl tbl
      rw [hlen] at h
      exact h
    · exact runWrite_fst (upsertApply now) B _ tbl 0 []
    · intro k hk hkB
      exact runWrite_hist_get (upsertApply now) B hB k hk
        (docs.map (docToRow md5hex emb)) tbl (by rw [hlen]; exact hkB)

/-- C5 witness: three documents at batch size two commit twice for both
insert and upsert, and the first commit snapshot is the effect of
exactly the first two documents. -/
theorem insert_upsert_batch_commits_witness :
    (insert wHash wEmb (0 : Nat) 2 wDocs
      ([] : List (Row Nat Nat Nat Nat))).2.length = 2 ∧
    (insert wHash wEmb (0 : Nat) 2 wDocs []).2.get? 0 =
      some (((wDocs.map (docToRow wHash wEmb)).take 2).foldl
        (insertApply 0) []) ∧
    (upsert wHash wEmb (0 : Nat) 2 wDocs
      ([] : List (Row Nat Nat Nat Nat))).2.length = 2 := by
  have h := insert_upsert_batch_commits wHash wEmb (0 : Nat) 2
    (by decide) wDocs ([] : List (Row Nat Nat Nat Nat))
  exact ⟨h.1.1, h.1.2.2 1 (by decide) (by decide), h.2.1⟩

/-- C6: the claim describes the clear intent of the handler, but the
handler references the name logger, which the module never imports, so a
failing existence probe raises NameError instead of being logged and
returning false. -/
theorem table_exists_probe_failure_raises :
    table_exists (Except.error "connection refused") =
      Except.error "NameError: name logger is not defined" ∧
    table_exists (Except.error "connection refused") ≠ Except.ok false :=
  ⟨rfl, by simp [table_exists]⟩

/-- C7: for documents without an explicit id the derived identity is the
digest of the null-normalized content, so equal content derives equal
identity, and doc_exists applies the same normalize-then-hash pipeline,
so a freshly inserted document is found by the content-existence
check. -/
theorem fingerprint_identity_round {M E U T : Type}
    (md5hex : String → String) (emb : String → E) (now : T)
    (tbl : List (Row M E U T)) (d1 d2 : Doc M E U)
    (h1 : d1.id = none) (h2 : d2.id = none)
    (hc : d1.content = d2.content) :
    deriveId md5hex d1 = md5hex (cleanContent d1.content) ∧
    deriveId md5hex d1 = deriveId md5hex d2 ∧
    doc_exists md5hex (insert md5hex emb now 1 [d1] tbl).1 d1 = true := by
  refine ⟨?_, ?_, ?_⟩
  · simp [deriveId, h1]
  · simp [deriveId, h1, h2, hc]
  · have hfst : (insert md5hex emb now 1 [d1] tbl).1 =
        insertApply now tbl (docToRow md5hex emb d1) :=
      (runWrite_fst (insertApply now) 1 _ tbl 0 []).trans (by simp)
    rw [hfst]
    simp [doc_exists, insertApply, docToRow, List.any_append]

/-- C7 witness: inserting a document whose content holds an embedded
null character derives the digest of the normalized content as its
identity and is immediately found by doc_exists. -/
theorem fingerprint_identity_round_witness :
    deriveId wHash wNullDoc = wHash (cleanContent wNullDoc.content) ∧
    deriveId wHash wNullDoc = deriveId wHash wNullDoc ∧
    doc_exists wHash
      (insert wHash wEmb (0 : Nat) 1 [wNullDoc]
        ([] : List (Row Nat Nat Nat Nat))).1 wNullDoc = true :=
  fingerprint_identity_round wHash wEmb 0 [] wNullDoc wNullDoc rfl rfl rfl

/-- C9 counterexample: a table holding exactly one row, whose name is
NULL, has one stored row while get_count returns 0, because the count
query counts the name column. -/
theorem get_count_counterexample :
    get_count [wRowNoName] = 0 ∧ [wRowNoName].length = 1 := by decide

/-- C9 (amended): get_count returns the number of rows whose name is
non-NULL (the count query counts the name column, and yields 0 when the
scalar is absent); it equals the total row count whenever every stored
row has a name. -/
theorem get_count_counts_named_rows {M E U T : Type}
    (tbl : List (Row M E U T)) (h : ∀ r ∈ tbl, r.name.isSome) :
    get_count tbl = (tbl.filter (fun r => r.name.isSome)).length ∧
    get_count tbl = tbl.length := by
  have hfe : tbl.filter (fun r => r.name.isSome) = tbl :=
    List.filter_eq_self.mpr (fun a ha => h a ha)
  exact ⟨rfl, by simp [get_count, countScalar, hfe]⟩

/-- C9 witness: on a table whose single row carries a name, get_count
agrees with the row count. -/
theorem get_count_counts_named_rows_witness :
    get_count [wRowNamed] = [wRowNamed].length :=
  (get_count_counts_named_rows [wRowNamed] (by decide)).2

/-- C10: search projects exactly the five columns name, meta_data,
content, embedding and usage — never id, content_hash or the
timestamps — builds every result document from those columns of some
live row with no identity attached, and returns at most lim
documents. -/
theorem search_result_shape {M E U T : Type} [DecidableEq M]
    [DecidableEq E] [DecidableEq U] [DecidableEq T]
    (ipS cosS : E → E → Int) (d : Distance) (q : E) (lim : Nat)
    (fs : Option (List (String × ColVal M E U T)))
    (rows : List (Row M E U T)) :
    (buildStmt d fs lim : Stmt M E U T).columns = searchColumns ∧
    ("id" ∉ searchColumns ∧ "content_hash" ∉ searchColumns ∧
      "created_at" ∉ searchColumns ∧ "updated_at" ∉ searchColumns) ∧
    ∃ docs,
      search ipS cosS d (some q) lim fs { rows := rows } = .ok docs ∧
      docs.length ≤ lim ∧
      ∀ doc ∈ docs, doc.id = none ∧ ∃ r ∈ rows, doc = mkSearchDoc r := by
  refine ⟨?_, by decide, ?_⟩
  · cases fs <;> simp [buildStmt, applyFilters_eq]
  · refine ⟨(execStmt ipS cosS (buildStmt d fs lim) q rows).map mkSearchDoc,
      rfl, ?_, ?_⟩
    · rw [List.length_map]
      exact List.length_take_le _ _
    · intro doc hdoc
      obtain ⟨r, hr, hdef⟩ := List.mem_map.1 hdoc
      have hr2 : r ∈ rows := by
        have h1 : r ∈ sortRows ipS cosS
            (buildStmt d fs lim : Stmt M E U T).orderBy q
            (rows.filter (fun row =>
              (buildStmt d fs lim : Stmt M E U T).whereEq.all
                (rowSatisfies row))) :=
          List.mem_of_mem_take hr
        exact (List.mem_filter.1 ((mem_sortRows ipS cosS _ q _ r).1 h1)).1
      exact hdef ▸ ⟨rfl, r, hr2, rfl⟩

end PgVectorModel
